import Mathlib

/-!
# Verification of the Code du Travail chunking parser

A shallow embedding of `src/modules/chunking.py` (class `CodeTravailChunker`):
the line normalizer, the five regex matchers, the hierarchy state machine
(`parse_text`), the chunk builder (`_create_chunk` / `_save_article_chunk`)
and the JSON persistence adapter (`save_to_json` / `load_from_json`,
modelled at the level of the file contents produced by `json.dump(...,
ensure_ascii=False, indent=2)` and consumed by `json.load`).

Python regexes are embedded as executable character-list functions carrying
the exact semantics of the anchored patterns in the source (verified against
the reference implementation of `re`); `re.IGNORECASE` is modelled by ASCII
case folding, which coincides with Python on all ASCII input.
-/

namespace CodeTravail

/-- Python whitespace: the characters matched by `\s` for text patterns and
stripped by `str.strip()`. -/
def pySpace (c : Char) : Bool :=
  c = ' ' || c = '\t' || c = '\n' || c = '\r' || c.toNat = 0x0b || c.toNat = 0x0c ||
  (0x1c ≤ c.toNat && c.toNat ≤ 0x1f) || c.toNat = 0x85 || c.toNat = 0xa0 ||
  c.toNat = 0x1680 || (0x2000 ≤ c.toNat && c.toNat ≤ 0x200a) ||
  c.toNat = 0x2028 || c.toNat = 0x2029 || c.toNat = 0x202f || c.toNat = 0x205f ||
  c.toNat = 0x3000

/-- Model of `str.strip()` on a character list: drop Python whitespace from both ends. -/
def pyStripL (s : List Char) : List Char :=
  ((s.dropWhile pySpace).reverse.dropWhile pySpace).reverse

/-- Model of `str.strip()`. -/
def pyStrip (s : String) : String := ⟨pyStripL s.data⟩

/-- Python truthiness of a string: non-empty. -/
def strTruthy (s : String) : Bool := !s.data.isEmpty

/-- Model of `text.split('\n')`: split at every newline; the empty string yields `[""]`. -/
def splitNl : List Char → List (List Char)
  | [] => [[]]
  | c :: r =>
    if c = '\n' then [] :: splitNl r
    else
      match splitNl r with
      | [] => [[c]]
      | h :: t => (c :: h) :: t

/-- Line normalizer (`parse_text` line 156):
`[line.strip() for line in text.split('\n') if line.strip()]`. -/
def normalize (text : String) : List String :=
  ((splitNl text.data).map (fun l => (⟨pyStripL l⟩ : String))).filter strTruthy

/-- Case-insensitive literal prefix (ASCII folding, as `re.I` on ASCII
patterns): returns the rest of the input after the prefix. -/
def ciPfx : List Char → List Char → Option (List Char)
  | [], s => some s
  | _ :: _, [] => none
  | p :: ps, c :: cs => if c.toLower = p.toLower then ciPfx ps cs else none

/-- Case-insensitive literal prefix, also returning the matched input
characters as they appear in the input (regex groups keep original case). -/
def ciPfxSplit : List Char → List Char → Option (List Char × List Char)
  | [], s => some ([], s)
  | _ :: _, [] => none
  | p :: ps, c :: cs =>
    if c.toLower = p.toLower then
      (ciPfxSplit ps cs).map (fun pr => (c :: pr.1, pr.2))
    else none

/-- Greedy `X+` for a character class: fails unless at least one char matches. -/
def takeWhile1 (p : Char → Bool) (s : List Char) : Option (List Char × List Char) :=
  match s with
  | [] => none
  | c :: _ => if p c then some (s.takeWhile p, s.dropWhile p) else none

/-- The class `[IVXLCDM]` under `re.I`. -/
def isRoman (c : Char) : Bool :=
  let l := c.toLower
  l = 'i' || l = 'v' || l = 'x' || l = 'l' || l = 'c' || l = 'd' || l = 'm'

/-- The trailing `[\s.:]*` before the title/body group of every matcher. -/
def skipSepCls (s : List Char) : List Char :=
  s.dropWhile (fun c => pySpace c || c = '.' || c = ':')

/-- The five French ordinal alternatives of the Book pattern, in regex
alternation order. -/
def livreOrdinals : List (List Char) :=
  ["premier".data, "deuxieme".data, "troisieme".data, "quatrieme".data,
   "cinquieme".data]

/-- First ordinal alternative that matches as a prefix (regex alternation
tries them left to right). -/
def firstOrdinal : List (List Char) → List Char → Option (List Char × List Char)
  | [], _ => none
  | w :: ws, s =>
    match ciPfxSplit w s with
    | some r => some r
    | none => firstOrdinal ws s

/-- Model of `re.match(r'^LIVRE\s+(PREMIER|DEUXIEME|TROISIEME|QUATRIEME|CINQUIEME|[IVXLCDM]+)[\s.:]*(.*)$', line, re.I)`:
returns `(group 1, group 2)` on success. -/
def livreMatch (line : String) : Option (String × String) :=
  match ciPfx "livre".data line.data with
  | none => none
  | some r =>
    match takeWhile1 pySpace r with
    | none => none
    | some (_, r1) =>
      match (match firstOrdinal livreOrdinals r1 with
             | some g => some g
             | none => takeWhile1 isRoman r1) with
      | none => none
      | some (g1, r2) => some (⟨g1⟩, ⟨skipSepCls r2⟩)

/-- Shared shape of the Title/Chapter patterns
`^<kw>\s+([a-z]+|[IVXLCDM]+)[\s.:]*(.*)$` under `re.I`: group 1 is the
maximal run of ASCII letters (the two alternatives fold together). -/
def kwAlphaMatch (kw : List Char) (line : String) : Option (String × String) :=
  match ciPfx kw line.data with
  | none => none
  | some r =>
    match takeWhile1 pySpace r with
    | none => none
    | some (_, r1) =>
      match takeWhile1 Char.isAlpha r1 with
      | none => none
      | some (g1, r2) => some (⟨g1⟩, ⟨skipSepCls r2⟩)

/-- Model of `re.match(r'^Titre\s+([a-z]+|[IVXLCDM]+)[\s.:]*(.*)$', line, re.I)`. -/
def titreMatch (line : String) : Option (String × String) :=
  kwAlphaMatch "titre".data line

/-- Model of `re.match(r'^Chapitre\s+([a-z]+|[IVXLCDM]+)[\s.:]*(.*)$', line, re.I)`. -/
def chapitreMatch (line : String) : Option (String × String) :=
  kwAlphaMatch "chapitre".data line

/-- Model of `re.match(r'^Section\s+([IVXLCDM]+|[0-9]+)[\s.:]*(.*)$', line, re.I)`:
the Roman alternative is tried first, so group 1 is a maximal Roman run when
the first numeral character is Roman, else a maximal digit run. -/
def sectionMatch (line : String) : Option (String × String) :=
  match ciPfx "section".data line.data with
  | none => none
  | some r =>
    match takeWhile1 pySpace r with
    | none => none
    | some (_, r1) =>
      match (match takeWhile1 isRoman r1 with
             | some g => some g
             | none => takeWhile1 Char.isDigit r1) with
      | none => none
      | some (g1, r2) => some (⟨g1⟩, ⟨skipSepCls r2⟩)

/-- Model of `re.match(r'^(?:Art\.|Article)\s*(\d+(?:-\d+)?)[\s.:]*(.*)$', line, re.I)`.
The two keyword alternatives differ at their fourth character, so no
observable backtracking occurs between them. -/
def articleMatch (line : String) : Option (String × String) :=
  let afterKw : List Char → Option (String × String) := fun r =>
    let r0 := r.dropWhile pySpace
    match takeWhile1 Char.isDigit r0 with
    | none => none
    | some (d1, r1) =>
      match r1 with
      | '-' :: r2 =>
        match takeWhile1 Char.isDigit r2 with
        | some (d2, r3) => some (⟨d1 ++ '-' :: d2⟩, ⟨skipSepCls r3⟩)
        | none => some (⟨d1⟩, ⟨skipSepCls r1⟩)
      | _ => some (⟨d1⟩, ⟨skipSepCls r1⟩)
  match ciPfx "art.".data line.data with
  | some r => afterKw r
  | none =>
    match ciPfx "article".data line.data with
    | some r => afterKw r
    | none => none

/-- Model of `re.match(r'^(LIVRE|Titre|Chapitre|Section|Art)', line, re.I)`: the
keyword-prefix guard used for the one-line lookahead and for body
collection. -/
def headingGuard (line : String) : Bool :=
  (ciPfx "livre".data line.data).isSome || (ciPfx "titre".data line.data).isSome ||
  (ciPfx "chapitre".data line.data).isSome ||
  (ciPfx "section".data line.data).isSome ||
  (ciPfx "art".data line.data).isSome

/-- Chunk metadata: the fields of the dict built by `_create_chunk`
(lines 119-132 of the source), with the source's French key names. -/
structure ChunkMeta where
  livre : Option String
  titre : Option String
  chapitre : Option String
  «section» : Option String
  article : String
  article_number : String
  base_article : String
  is_sub_article : Bool
  law : String
  chunk_type : String
  citation : String
  hierarchy_path : String
deriving DecidableEq

/-- One emitted chunk (`_create_chunk`'s return value). -/
structure Chunk where
  id : String
  text : String
  metadata : ChunkMeta
deriving DecidableEq

/-- The chunker's mutable state: `self.chunks` plus the parsing context set
by `_reset_context`. -/
structure Ctx where
  chunks : List Chunk
  current_livre : Option String
  current_titre : Option String
  current_chapitre : Option String
  current_section : Option String
  current_article : Option String
  current_article_number : Option String
  current_article_text : List String
deriving DecidableEq

/-- A freshly constructed chunker (`__init__`). -/
def initCtx : Ctx :=
  { chunks := [], current_livre := none, current_titre := none,
    current_chapitre := none, current_section := none, current_article := none,
    current_article_number := none, current_article_text := [] }

/-- Model of `_reset_context`: clears the parsing context but not `self.chunks`. -/
def reset_context (st : Ctx) : Ctx :=
  { st with current_livre := none, current_titre := none,
            current_chapitre := none, current_section := none,
            current_article := none, current_article_number := none,
            current_article_text := [] }

/-- Python truthiness of an optional string field. -/
def optTruthy : Option String → Bool
  | some s => strTruthy s
  | none => false

/-- Model of `'<sep>'.join(parts)`. -/
def joinSep (sep : String) : List String → String
  | [] => ""
  | [s] => s
  | s :: rest => s ++ sep ++ joinSep sep rest

/-- Model of `num.replace('-', '_')` (single-character `str.replace`). -/
def charReplace (a b : Char) (s : String) : String :=
  ⟨s.data.map (fun c => if c = a then b else c)⟩

/-- Model of the membership test `'-' in num`. -/
def containsChar (a : Char) (s : String) : Bool := s.data.contains a

/-- Model of `num.split('-')[0]`: the prefix before the first hyphen (the whole string
when there is none). -/
def splitHeadHyphen (s : String) : String :=
  ⟨s.data.takeWhile (fun c => !(c == '-'))⟩

/-- One attempt of `re.search(r'<kw>\s+([^\s.]+)', label, re.I)` anchored at
the current position: keyword, at least one whitespace, then a maximal
non-empty run outside `[\s.]`. -/
def kwNumAt (kw : List Char) (s : List Char) : Option (List Char) :=
  match ciPfx kw s with
  | none => none
  | some r =>
    match takeWhile1 pySpace r with
    | none => none
    | some (_, r1) =>
      match takeWhile1 (fun c => !(pySpace c) && !(c == '.')) r1 with
      | none => none
      | some (g, _) => some g

/-- Model of `re.search`: first position (left to right) where `kwNumAt` matches. -/
def searchKwNum (kw : List Char) : List Char → Option (List Char)
  | [] => none
  | s@(_ :: t) =>
    match kwNumAt kw s with
    | some g => some g
    | none => searchKwNum kw t

/-- One optional entry of the hierarchy path (`_create_chunk` lines 86-107):
emitted only when the level label is truthy and the keyword search finds a
numeral in it. -/
def hierEntry (kwDisp : String) (kw : List Char) (o : Option String) : List String :=
  match o with
  | none => []
  | some lbl =>
    if strTruthy lbl then
      match searchKwNum kw lbl.data with
      | some g => [kwDisp ++ " " ++ (⟨g⟩ : String)]
      | none => []
    else []

/-- Model of `_create_chunk`: materializes the chunk for the active article from the
current context. In the source the article label and number are known to be
set at every call site; absent options are defaulted to `""` to keep the
model total. -/
def create_chunk (st : Ctx) : Chunk :=
  let num := st.current_article_number.getD ""
  let full_text := pyStrip (joinSep " " st.current_article_text)
  let chunk_id := "CT_TN_A" ++ charReplace '-' '_' num
  let hierarchy_parts :=
    hierEntry "Livre" "livre".data st.current_livre ++
    hierEntry "Titre" "titre".data st.current_titre ++
    hierEntry "Chapitre" "chapitre".data st.current_chapitre ++
    hierEntry "Section" "section".data st.current_section ++
    [st.current_article.getD ""]
  let is_sub := containsChar '-' num
  { id := chunk_id,
    text := full_text,
    metadata :=
      { livre := st.current_livre, titre := st.current_titre,
        chapitre := st.current_chapitre, «section» := st.current_section,
        article := st.current_article.getD "", article_number := num,
        base_article := if is_sub then splitHeadHyphen num else num,
        is_sub_article := is_sub,
        law := "Code du travail tunisien", chunk_type := "article",
        citation := "Code du travail tunisien, art. " ++ num,
        hierarchy_path := joinSep " > " hierarchy_parts } }

/-- Model of `_save_article_chunk` (source lines 135-144): appends a chunk built from
the cleaned body lines when an article is active and the cleaned body is
non-empty, then clears only `current_article_text`; otherwise leaves the
state untouched. -/
def save_article_chunk (st : Ctx) : Ctx :=
  if optTruthy st.current_article && !st.current_article_text.isEmpty then
    let cleaned := (st.current_article_text.map pyStrip).filter strTruthy
    if cleaned.isEmpty then st
    else
      { st with
        chunks := st.chunks ++ [create_chunk { st with current_article_text := cleaned }],
        current_article_text := [] }
  else st

/-- The shared continuation-title step of the four heading branches
(e.g. lines 170-175): when the inline fragment strips to empty and the next
line exists and fails the keyword-prefix guard, that next line becomes the
title and is consumed (second component `true`). -/
def resolveTitle (frag : String) (nx : Option String) : String × Bool :=
  let t := pyStrip frag
  if strTruthy t then (t, false)
  else
    match nx with
    | some nl => if headingGuard nl then ("", false) else (nl, true)
    | none => ("", false)

/-- Model of the label composition `f"<Kw> {num}" + (f". {title}" if title else "")`. -/
def composeLabel (kw num title : String) : String :=
  kw ++ " " ++ num ++ (if strTruthy title then ". " ++ title else "")

/-- One iteration of the `parse_text` while-loop on the current line, with
the following line (if any) available for the one-line lookahead. The second
component reports whether the lookahead consumed that following line. -/
def stepLine (st : Ctx) (line : String) (nx : Option String) : Ctx × Bool :=
  match livreMatch line with
  | some (num, frag) =>
    let st1 := save_article_chunk st
    let tc := resolveTitle frag nx
    ({ st1 with current_livre := some (composeLabel "Livre" num tc.1),
                current_titre := none, current_chapitre := none,
                current_section := none, current_article := none,
                current_article_number := none }, tc.2)
  | none =>
  match titreMatch line with
  | some (num, frag) =>
    let st1 := save_article_chunk st
    let tc := resolveTitle frag nx
    ({ st1 with current_titre := some (composeLabel "Titre" num tc.1),
                current_chapitre := none, current_section := none,
                current_article := none, current_article_number := none }, tc.2)
  | none =>
  match chapitreMatch line with
  | some (num, frag) =>
    let st1 := save_article_chunk st
    let tc := resolveTitle frag nx
    ({ st1 with current_chapitre := some (composeLabel "Chapitre" num tc.1),
                current_section := none, current_article := none,
                current_article_number := none }, tc.2)
  | none =>
  match sectionMatch line with
  | some (num, frag) =>
    let st1 := save_article_chunk st
    let tc := resolveTitle frag nx
    ({ st1 with current_section := some (composeLabel "Section" num tc.1),
                current_article := none, current_article_number := none }, tc.2)
  | none =>
  match articleMatch line with
  | some (num, frag) =>
    let st1 := save_article_chunk st
    let atext := pyStrip frag
    ({ st1 with current_article_number := some num,
                current_article := some ("Article " ++ num),
                current_article_text :=
                  st1.current_article_text ++
                    (if strTruthy atext then [atext] else []) }, false)
  | none =>
    if optTruthy st.current_article && !headingGuard line then
      ({ st with current_article_text := st.current_article_text ++ [line] }, false)
    else (st, false)

/-- The `parse_text` while-loop over the normalized lines. When the
lookahead consumed the following line, the cursor skips it. -/
def parseLoop : Ctx → List String → Ctx
  | st, [] => st
  | st, [line] => (stepLine st line none).1
  | st, line :: next :: rest =>
    let r := stepLine st line (some next)
    if r.2 then parseLoop r.1 rest else parseLoop r.1 (next :: rest)

/-- Model of `parse_text`: normalize, run the loop, final flush. The method mutates
`self` and returns `self.chunks`; the model returns the final state, with
`parse_text_chunks` projecting the returned list. -/
def parse_text (st : Ctx) (text : String) : Ctx :=
  save_article_chunk (parseLoop st (normalize text))

/-- The list returned by `parse_text`. -/
def parse_text_chunks (st : Ctx) (text : String) : List Chunk :=
  (parse_text st text).chunks

/-- Model of `process_pdf`, with the PDF-extraction collaborator abstracted as the
extracted text: resets `self.chunks` and the context, then parses. -/
def process_pdf (st : Ctx) (extracted : String) : Ctx :=
  parse_text (reset_context { st with chunks := [] }) extracted

/-! ### The persistence adapter

`save_to_json` writes `json.dump(self.chunks, f, ensure_ascii=False,
indent=2)`; `load_from_json` reads it back with `json.load`. Both are
modelled at the level of the file contents. `Json` is the in-memory shape of
a Python value built from strings, booleans, `None`, lists and dicts — the
chunks live as such dicts in `self.chunks`, and `Chunk.toJson` is that dict
view of the typed `Chunk` record. The loader covers the JSON fragment the
chunker ever produces (no numbers); it is strict about control characters in
strings, as `json.load` is. -/

inductive Json where
  | str : String → Json
  | bool : Bool → Json
  | null : Json
  | arr : List Json → Json
  | obj : List (String × Json) → Json

/-- An optional string field as Python serializes it (`None` ↦ `null`). -/
def optStr : Option String → Json
  | some s => .str s
  | none => .null

/-- The metadata dict literal of `_create_chunk`, key order as in the
source. -/
def ChunkMeta.toJson (m : ChunkMeta) : Json :=
  .obj [("livre", optStr m.livre), ("titre", optStr m.titre),
        ("chapitre", optStr m.chapitre), ("section", optStr m.«section»),
        ("article", .str m.article), ("article_number", .str m.article_number),
        ("base_article", .str m.base_article),
        ("is_sub_article", .bool m.is_sub_article),
        ("law", .str m.law), ("chunk_type", .str m.chunk_type),
        ("citation", .str m.citation),
        ("hierarchy_path", .str m.hierarchy_path)]

/-- The chunk dict literal of `_create_chunk`. -/
def Chunk.toJson (c : Chunk) : Json :=
  .obj [("id", .str c.id), ("text", .str c.text),
        ("metadata", c.metadata.toJson)]

/-- Key list of an object value (empty for non-objects). -/
def objKeys : Json → List String
  | .obj kvs => kvs.map Prod.fst
  | _ => []

/-- Lower-case hexadecimal digit, as `'%04x' % i` produces. -/
def hexDigitChar (n : Nat) : Char :=
  if n < 10 then Char.ofNat (48 + n) else Char.ofNat (87 + n)

/-- One character as the `json` encoder with `ensure_ascii=False` emits it:
quote, backslash and ASCII control characters are escaped (short escapes for
`\b \t \n \f \r`, `\u00xx` otherwise); everything else passes through. -/
def escapeChar (c : Char) : List Char :=
  if c = '"' then ['\\', '"']
  else if c = '\\' then ['\\', '\\']
  else if c = '\n' then ['\\', 'n']
  else if c = '\r' then ['\\', 'r']
  else if c = '\t' then ['\\', 't']
  else if c.toNat = 8 then ['\\', 'b']
  else if c.toNat = 12 then ['\\', 'f']
  else if c.toNat < 32 then
    ['\\', 'u', '0', '0', hexDigitChar (c.toNat / 16), hexDigitChar (c.toNat % 16)]
  else [c]

/-- A string body, escaped. -/
def escapeStr : List Char → List Char
  | [] => []
  | c :: r => escapeChar c ++ escapeStr r

/-- The indentation for nesting level `n` under `indent=2`. -/
def pad (n : Nat) : List Char := List.replicate (2 * n) ' '

mutual
/-- Layout of `json.dump(..., ensure_ascii=False, indent=2)` output at nesting level
`lvl`, as the reference encoder lays it out. -/
def renderJson (lvl : Nat) : Json → List Char
  | .str s => '"' :: (escapeStr s.data ++ ['"'])
  | .bool true => ['t', 'r', 'u', 'e']
  | .bool false => ['f', 'a', 'l', 's', 'e']
  | .null => ['n', 'u', 'l', 'l']
  | .arr [] => ['[', ']']
  | .arr (x :: xs) =>
    '[' :: '\n' :: (pad (lvl + 1) ++ (renderJson (lvl + 1) x ++
      (renderTail (lvl + 1) xs ++ ('\n' :: (pad lvl ++ [']'])))))
  | .obj [] => ['\x7b', '\x7d']
  | .obj (kv :: kvs) =>
    '\x7b' :: '\n' :: (pad (lvl + 1) ++ (renderKV (lvl + 1) kv ++
      (renderFTail (lvl + 1) kvs ++ ('\n' :: (pad lvl ++ ['\x7d'])))))
/-- The items after the first of a non-empty array: `",\n" + indent` before
each. -/
def renderTail (lvl : Nat) : List Json → List Char
  | [] => []
  | x :: xs => ',' :: '\n' :: (pad lvl ++ (renderJson lvl x ++ renderTail lvl xs))
/-- One `"key": value` member. -/
def renderKV (lvl : Nat) : String × Json → List Char
  | (k, v) => '"' :: (escapeStr k.data ++ ('"' :: ':' :: ' ' :: renderJson lvl v))
/-- The members after the first of a non-empty object. -/
def renderFTail (lvl : Nat) : List (String × Json) → List Char
  | [] => []
  | kv :: kvs => ',' :: '\n' :: (pad lvl ++ (renderKV lvl kv ++ renderFTail lvl kvs))
end

/-- JSON inter-token whitespace, as the decoder skips it. -/
def jsonWs (c : Char) : Bool := c = ' ' || c = '\t' || c = '\n' || c = '\r'

def skipWs (s : List Char) : List Char := s.dropWhile jsonWs

/-- Value of one hexadecimal digit character. -/
def hexVal (c : Char) : Option Nat :=
  if 48 ≤ c.toNat && c.toNat ≤ 57 then some (c.toNat - 48)
  else if 97 ≤ c.toNat && c.toNat ≤ 102 then some (c.toNat - 87)
  else if 65 ≤ c.toNat && c.toNat ≤ 70 then some (c.toNat - 55)
  else none

/-- The short escapes the decoder accepts after a backslash. -/
def escCode (e : Char) : Option Char :=
  if e = '"' then some '"'
  else if e = '\\' then some '\\'
  else if e = '/' then some '/'
  else if e = 'n' then some '\n'
  else if e = 't' then some '\t'
  else if e = 'r' then some '\r'
  else if e = 'b' then some (Char.ofNat 8)
  else if e = 'f' then some (Char.ofNat 12)
  else none

/-- Decode a string body after the opening quote: returns the content and
the input after the closing quote. Unescaped control characters are
rejected (strict mode). -/
def parseStringBody (s : List Char) : Option (List Char × List Char) :=
  match s with
  | [] => none
  | c :: r =>
    if c = '"' then some ([], r)
    else if c = '\\' then
      match r with
      | 'u' :: a :: b :: c2 :: d :: r2 =>
        match hexVal a, hexVal b, hexVal c2, hexVal d with
        | some ha, some hb, some hc, some hd =>
          (parseStringBody r2).map
            (fun p => (Char.ofNat (((ha * 16 + hb) * 16 + hc) * 16 + hd) :: p.1, p.2))
        | _, _, _, _ => none
      | e :: r2 =>
        match escCode e with
        | some ch => (parseStringBody r2).map (fun p => (ch :: p.1, p.2))
        | none => none
      | [] => none
    else if c.toNat < 32 then none
    else (parseStringBody r).map (fun p => (c :: p.1, p.2))

mutual
/-- Decode one JSON value (leading whitespace allowed). The `fuel` only
bounds recursion depth for totality; `json_load` supplies enough for any
input. -/
def parseValue : Nat → List Char → Option (Json × List Char)
  | 0, _ => none
  | fuel + 1, s =>
    match skipWs s with
    | [] => none
    | c :: r =>
      if c = '"' then (parseStringBody r).map (fun p => (Json.str ⟨p.1⟩, p.2))
      else if c = 't' then
        match r with
        | 'r' :: 'u' :: 'e' :: r2 => some (Json.bool true, r2)
        | _ => none
      else if c = 'f' then
        match r with
        | 'a' :: 'l' :: 's' :: 'e' :: r2 => some (Json.bool false, r2)
        | _ => none
      else if c = 'n' then
        match r with
        | 'u' :: 'l' :: 'l' :: r2 => some (Json.null, r2)
        | _ => none
      else if c = '[' then
        match skipWs r with
        | [] => none
        | c2 :: r2 =>
          if c2 = ']' then some (Json.arr [], r2)
          else (parseItems fuel (c2 :: r2)).map (fun p => (Json.arr p.1, p.2))
      else if c = '\x7b' then
        match skipWs r with
        | [] => none
        | c2 :: r2 =>
          if c2 = '\x7d' then some (Json.obj [], r2)
          else (parseFields fuel (c2 :: r2)).map (fun p => (Json.obj p.1, p.2))
      else none
/-- Decode one-or-more comma-separated array items up to the closing
bracket. -/
def parseItems : Nat → List Char → Option (List Json × List Char)
  | 0, _ => none
  | fuel + 1, s =>
    match parseValue fuel s with
    | none => none
    | some (v, r) =>
      match skipWs r with
      | ',' :: r2 => (parseItems fuel r2).map (fun p => (v :: p.1, p.2))
      | ']' :: r2 => some ([v], r2)
      | _ => none
/-- Decode one-or-more `"key": value` members up to the closing brace. -/
def parseFields : Nat → List Char → Option (List (String × Json) × List Char)
  | 0, _ => none
  | fuel + 1, s =>
    match skipWs s with
    | '"' :: r =>
      match parseStringBody r with
      | none => none
      | some (k, r1) =>
        match skipWs r1 with
        | ':' :: r2 =>
          match parseValue fuel r2 with
          | none => none
          | some (v, r3) =>
            match skipWs r3 with
            | ',' :: r4 => (parseFields fuel r4).map (fun p => ((⟨k⟩, v) :: p.1, p.2))
            | '\x7d' :: r4 => some ([(⟨k⟩, v)], r4)
            | _ => none
        | _ => none
    | _ => none
end

/-- Model of `json.load` on the file contents: one document, only whitespace may
follow. -/
def json_load (s : String) : Option Json :=
  match parseValue (s.data.length + 1) s.data with
  | some (j, r) => if skipWs r = [] then some j else none
  | none => none

/-- Model of `json.dump(v, f, ensure_ascii=False, indent=2)`: the file contents. -/
def json_dump (j : Json) : String := ⟨renderJson 0 j⟩

/-- Model of `save_to_json`: the chunk list is dumped as a JSON array. -/
def save_to_json (cs : List Chunk) : String :=
  json_dump (Json.arr (cs.map Chunk.toJson))

/-- Model of `load_from_json`: the parsed value that becomes `self.chunks`. -/
def load_from_json (s : String) : Option Json := json_load s

/-! ### Concrete values used in instantiations -/

/-- A mid-parse state with an active article and one pending body line. -/
def exArticleCtx : Ctx :=
  { initCtx with current_article := some "Article 1",
                 current_article_number := some "1",
                 current_article_text := ["corps"] }

/-- A mid-parse state with every heading level and an article active. -/
def exFullCtx : Ctx :=
  { exArticleCtx with current_livre := some "Livre I",
                      current_titre := some "Titre II",
                      current_section := some "Section III" }

/-- The chunk the parser emits for the input `"Art. 1 Bonjour"`. -/
def exChunk1 : Chunk :=
  { id := "CT_TN_A1", text := "Bonjour",
    metadata :=
      { livre := none, titre := none, chapitre := none, «section» := none,
        article := "Article 1", article_number := "1", base_article := "1",
        is_sub_article := false, law := "Code du travail tunisien",
        chunk_type := "article",
        citation := "Code du travail tunisien, art. 1",
        hierarchy_path := "Article 1" } }

/-- The chunk the parser emits for the input `"Art. 5-2 Bonjour"`. -/
def exChunk52 : Chunk :=
  { id := "CT_TN_A5_2", text := "Bonjour",
    metadata :=
      { livre := none, titre := none, chapitre := none, «section» := none,
        article := "Article 5-2", article_number := "5-2", base_article := "5",
        is_sub_article := true, law := "Code du travail tunisien",
        chunk_type := "article",
        citation := "Code du travail tunisien, art. 5-2",
        hierarchy_path := "Article 5-2" } }

/-- The metadata keys of every serialized chunk, in source dict order. -/
def metaKeyNames : List String :=
  ["livre", "titre", "chapitre", "section", "article", "article_number",
   "base_article", "is_sub_article", "law", "chunk_type", "citation",
   "hierarchy_path"]

/-! ### Inversion lemmas for the JSON codec -/

@[simp] theorem string_eta (s : String) : (⟨s.data⟩ : String) = s := rfl

/-- Decoding one hex digit the encoder produced. -/
theorem hexVal_hexDigitChar_fin :
    ∀ n : Fin 16, hexVal (hexDigitChar n.val) = some n.val := by decide

theorem hexVal_hexDigitChar (n : Nat) (h : n < 16) :
    hexVal (hexDigitChar n) = some n := hexVal_hexDigitChar_fin ⟨n, h⟩

/-- Decoding one escaped character undoes the escaping. -/
theorem parseStringBody_escapeChar (c : Char) (l : List Char) :
    parseStringBody (escapeChar c ++ l) =
      (parseStringBody l).map (fun p => (c :: p.1, p.2)) := by
  by_cases h1 : c = '"'
  · subst h1; rfl
  · by_cases h2 : c = '\\'
    · subst h2; rfl
    · by_cases h3 : c = '\n'
      · subst h3; rfl
      · by_cases h4 : c = '\r'
        · subst h4; rfl
        · by_cases h5 : c = '\t'
          · subst h5; rfl
          · by_cases h6 : c.toNat = 8
            · have hc : c = Char.ofNat 8 := by rw [← h6, Char.ofNat_toNat]
              subst hc; rfl
            · by_cases h7 : c.toNat = 12
              · have hc : c = Char.ofNat 12 := by rw [← h7, Char.ofNat_toNat]
                subst hc; rfl
              · by_cases h8 : c.toNat < 32
                · have hesc : escapeChar c = ['\\', 'u', '0', '0',
                      hexDigitChar (c.toNat / 16), hexDigitChar (c.toNat % 16)] := by
                    unfold escapeChar
                    rw [if_neg h1, if_neg h2, if_neg h3, if_neg h4, if_neg h5,
                        if_neg h6, if_neg h7, if_pos h8]
                  rw [hesc]
                  rw [show ('\\' :: 'u' :: '0' :: '0' :: hexDigitChar (c.toNat / 16) ::
                      hexDigitChar (c.toNat % 16) :: []) ++ l = '\\' :: 'u' :: '0' :: '0' ::
                      hexDigitChar (c.toNat / 16) :: hexDigitChar (c.toNat % 16) :: l from rfl]
                  rw [parseStringBody.eq_def]
                  have hdiv : c.toNat / 16 < 16 := by omega
                  have hmod : c.toNat % 16 < 16 := Nat.mod_lt _ (by omega)
                  have harith : c.toNat / 16 * 16 + c.toNat % 16 = c.toNat := by
                    omega
                  simp [show hexVal '0' = some 0 from rfl,
                    hexVal_hexDigitChar _ hdiv, hexVal_hexDigitChar _ hmod,
                    harith, Char.ofNat_toNat]
                · have hesc : escapeChar c = [c] := by
                    unfold escapeChar
                    rw [if_neg h1, if_neg h2, if_neg h3, if_neg h4, if_neg h5,
                        if_neg h6, if_neg h7, if_neg h8]
                  rw [hesc, List.singleton_append, parseStringBody.eq_def]
                  simp [h1, h2, h8]

/-- Decoding a fully escaped body stops exactly at the closing quote. -/
theorem parseStringBody_escapeStr (l : List Char) :
    ∀ rest, parseStringBody (escapeStr l ++ ('"' :: rest)) = some (l, rest) := by
  induction l with
  | nil =>
    intro rest
    rw [show escapeStr [] ++ ('"' :: rest) = '"' :: rest from rfl,
        parseStringBody.eq_def]
    simp
  | cons c r ih =>
    intro rest
    rw [show escapeStr (c :: r) = escapeChar c ++ escapeStr r from rfl,
        List.append_assoc, parseStringBody_escapeChar, ih]
    rfl

theorem skipWs_append_ws (ws : List Char) (l : List Char)
    (h : ∀ c ∈ ws, jsonWs c = true) : skipWs (ws ++ l) = skipWs l := by
  induction ws with
  | nil => rfl
  | cons c r ih =>
    rw [List.cons_append, skipWs, List.dropWhile_cons,
        if_pos (h c (List.mem_cons_self _ _))]
    exact ih fun x hx => h x (List.mem_cons_of_mem _ hx)

theorem skipWs_cons_not (c : Char) (l : List Char) (h : jsonWs c = false) :
    skipWs (c :: l) = c :: l := by
  rw [skipWs, List.dropWhile_cons, h]
  simp

theorem allWs_pad (n : Nat) : ∀ c ∈ pad n, jsonWs c = true := by
  intro c hc
  rw [List.eq_of_mem_replicate hc]
  rfl

/-- Every rendered value starts with a non-whitespace character that closes
nothing. -/
theorem renderJson_head (lvl : Nat) (j : Json) :
    ∃ c t, renderJson lvl j = c :: t ∧ jsonWs c = false ∧
      c ≠ ']' ∧ c ≠ '\x7d' ∧ c ≠ ',' := by
  cases j with
  | str s =>
    exact ⟨'"', escapeStr s.data ++ ['"'], rfl,
      by decide, by decide, by decide, by decide⟩
  | bool b =>
    cases b with
    | true => exact ⟨'t', ['r', 'u', 'e'], rfl, by decide, by decide, by decide, by decide⟩
    | false => exact ⟨'f', ['a', 'l', 's', 'e'], rfl, by decide, by decide, by decide, by decide⟩
  | null => exact ⟨'n', ['u', 'l', 'l'], rfl, by decide, by decide, by decide, by decide⟩
  | arr xs =>
    cases xs with
    | nil => exact ⟨'[', [']'], rfl, by decide, by decide, by decide, by decide⟩
    | cons x xs =>
      exact ⟨'[', '\n' :: (pad (lvl + 1) ++ (renderJson (lvl + 1) x ++
          (renderTail (lvl + 1) xs ++ ('\n' :: (pad lvl ++ [']']))))), rfl,
        by decide, by decide, by decide, by decide⟩
  | obj kvs =>
    cases kvs with
    | nil => exact ⟨'\x7b', ['\x7d'], rfl, by decide, by decide, by decide, by decide⟩
    | cons kv kvs =>
      exact ⟨'\x7b', '\n' :: (pad (lvl + 1) ++ (renderKV (lvl + 1) kv ++
          (renderFTail (lvl + 1) kvs ++ ('\n' :: (pad lvl ++ ['\x7d']))))), rfl,
        by decide, by decide, by decide, by decide⟩

/-! One-step reduction laws of the decoder (definitional). -/

theorem parseValue_quote (f : Nat) (r : List Char) :
    parseValue (f + 1) ('"' :: r) =
      (parseStringBody r).map (fun p => (Json.str ⟨p.1⟩, p.2)) := rfl

theorem parseValue_true (f : Nat) (r : List Char) :
    parseValue (f + 1) ('t' :: 'r' :: 'u' :: 'e' :: r) = some (Json.bool true, r) := rfl

theorem parseValue_false (f : Nat) (r : List Char) :
    parseValue (f + 1) ('f' :: 'a' :: 'l' :: 's' :: 'e' :: r) =
      some (Json.bool false, r) := rfl

theorem parseValue_null (f : Nat) (r : List Char) :
    parseValue (f + 1) ('n' :: 'u' :: 'l' :: 'l' :: r) = some (Json.null, r) := rfl

theorem parseValue_lbrack (f : Nat) (r : List Char) :
    parseValue (f + 1) ('[' :: r) =
      (match skipWs r with
       | [] => none
       | c2 :: r2 =>
         if c2 = ']' then some (Json.arr [], r2)
         else (parseItems f (c2 :: r2)).map (fun p => (Json.arr p.1, p.2))) := rfl

theorem parseValue_lbrace (f : Nat) (r : List Char) :
    parseValue (f + 1) ('\x7b' :: r) =
      (match skipWs r with
       | [] => none
       | c2 :: r2 =>
         if c2 = '\x7d' then some (Json.obj [], r2)
         else (parseFields f (c2 :: r2)).map (fun p => (Json.obj p.1, p.2))) := rfl

theorem parseItems_step (f : Nat) (s : List Char) :
    parseItems (f + 1) s =
      (match parseValue f s with
       | none => none
       | some (v, r) =>
         match skipWs r with
         | ',' :: r2 => (parseItems f r2).map (fun p => (v :: p.1, p.2))
         | ']' :: r2 => some ([v], r2)
         | _ => none) := rfl

theorem parseFields_step (f : Nat) (s : List Char) :
    parseFields (f + 1) s =
      (match skipWs s with
       | '"' :: r =>
         match parseStringBody r with
         | none => none
         | some (k, r1) =>
           match skipWs r1 with
           | ':' :: r2 =>
             match parseValue f r2 with
             | none => none
             | some (v, r3) =>
               match skipWs r3 with
               | ',' :: r4 => (parseFields f r4).map (fun p => ((⟨k⟩, v) :: p.1, p.2))
               | '\x7d' :: r4 => some ([(⟨k⟩, v)], r4)
               | _ => none
           | _ => none
       | _ => none) := rfl

/-- The decoder is insensitive to leading whitespace. -/
theorem parseValue_ws (fuel : Nat) (pre s : List Char)
    (h : ∀ c ∈ pre, jsonWs c = true) :
    parseValue fuel (pre ++ s) = parseValue fuel s := by
  cases fuel with
  | zero => rfl
  | succ f =>
    simp only [parseValue]
    rw [skipWs_append_ws pre s h]

/-- One leading space, as the key separator emits. -/
theorem parseValue_space (fuel : Nat) (s : List Char) :
    parseValue fuel (' ' :: s) = parseValue fuel s := by
  have h := parseValue_ws fuel [' '] s (by decide)
  simpa using h

theorem parseItems_ws (fuel : Nat) (pre s : List Char)
    (h : ∀ c ∈ pre, jsonWs c = true) :
    parseItems fuel (pre ++ s) = parseItems fuel s := by
  cases fuel with
  | zero => rfl
  | succ f =>
    rw [parseItems_step, parseItems_step, parseValue_ws f pre s h]

theorem parseFields_ws (fuel : Nat) (pre s : List Char)
    (h : ∀ c ∈ pre, jsonWs c = true) :
    parseFields fuel (pre ++ s) = parseFields fuel s := by
  cases fuel with
  | zero => rfl
  | succ f =>
    rw [parseFields_step, parseFields_step, skipWs_append_ws pre s h]

mutual
/-- Decoding a rendered value (after any whitespace) recovers it. -/
theorem rt_val : ∀ (j : Json) (lvl fuel : Nat) (pre rest : List Char),
    (∀ c ∈ pre, jsonWs c = true) → (renderJson lvl j).length < fuel →
    parseValue fuel (pre ++ (renderJson lvl j ++ rest)) = some (j, rest)
  | .str s, lvl, fuel, pre, rest, hpre, hf => by
    cases fuel with
    | zero => exact absurd hf (Nat.not_lt_zero _)
    | succ f =>
      have harg : renderJson lvl (Json.str s) ++ rest =
          '"' :: (escapeStr s.data ++ ('"' :: rest)) := by
        simp [renderJson]
      rw [harg, parseValue_ws _ _ _ hpre, parseValue_quote,
          parseStringBody_escapeStr]
      rfl
  | .bool true, lvl, fuel, pre, rest, hpre, hf => by
    cases fuel with
    | zero => exact absurd hf (Nat.not_lt_zero _)
    | succ f =>
      have harg : renderJson lvl (Json.bool true) ++ rest =
          't' :: 'r' :: 'u' :: 'e' :: rest := by
        simp [renderJson]
      rw [harg, parseValue_ws _ _ _ hpre, parseValue_true]
  | .bool false, lvl, fuel, pre, rest, hpre, hf => by
    cases fuel with
    | zero => exact absurd hf (Nat.not_lt_zero _)
    | succ f =>
      have harg : renderJson lvl (Json.bool false) ++ rest =
          'f' :: 'a' :: 'l' :: 's' :: 'e' :: rest := by
        simp [renderJson]
      rw [harg, parseValue_ws _ _ _ hpre, parseValue_false]
  | .null, lvl, fuel, pre, rest, hpre, hf => by
    cases fuel with
    | zero => exact absurd hf (Nat.not_lt_zero _)
    | succ f =>
      have harg : renderJson lvl Json.null ++ rest =
          'n' :: 'u' :: 'l' :: 'l' :: rest := by
        simp [renderJson]
      rw [harg, parseValue_ws _ _ _ hpre, parseValue_null]
  | .arr [], lvl, fuel, pre, rest, hpre, hf => by
    cases fuel with
    | zero => exact absurd hf (Nat.not_lt_zero _)
    | succ f =>
      have harg : renderJson lvl (Json.arr []) ++ rest = '[' :: (']' :: rest) := by
        simp [renderJson]
      rw [harg, parseValue_ws _ _ _ hpre, parseValue_lbrack,
          skipWs_cons_not _ _ (by decide)]
      simp
  | .arr (x :: xs), lvl, fuel, pre, rest, hpre, hf => by
    cases fuel with
    | zero => exact absurd hf (Nat.not_lt_zero _)
    | succ f =>
      obtain ⟨c, t, hct, hcws, hcbr, _, _⟩ := renderJson_head (lvl + 1) x
      have hpre2 : ∀ a ∈ '\n' :: pad (lvl + 1), jsonWs a = true := by
        intro a ha
        rcases List.mem_cons.mp ha with h0 | h0
        · subst h0; rfl
        · exact allWs_pad _ a h0
      have htws : ∀ a ∈ '\n' :: pad lvl, jsonWs a = true := by
        intro a ha
        rcases List.mem_cons.mp ha with h0 | h0
        · subst h0; rfl
        · exact allWs_pad _ a h0
      have harg : renderJson lvl (Json.arr (x :: xs)) ++ rest =
          '[' :: (('\n' :: pad (lvl + 1)) ++ (renderJson (lvl + 1) x ++
            (renderTail (lvl + 1) xs ++
              (('\n' :: pad lvl) ++ (']' :: rest))))) := by
        simp [renderJson]
      rw [harg, parseValue_ws _ _ _ hpre, parseValue_lbrack,
          skipWs_append_ws _ _ hpre2]
      have hsk : skipWs (renderJson (lvl + 1) x ++ (renderTail (lvl + 1) xs ++
          (('\n' :: pad lvl) ++ (']' :: rest)))) =
          renderJson (lvl + 1) x ++ (renderTail (lvl + 1) xs ++
          (('\n' :: pad lvl) ++ (']' :: rest))) := by
        rw [hct, List.cons_append, skipWs_cons_not _ _ hcws, ← List.cons_append,
            ← hct]
      rw [hsk, hct]
      simp only [List.cons_append]
      rw [if_neg hcbr, ← List.cons_append, ← hct]
      have hb : (renderJson (lvl + 1) x ++ renderTail (lvl + 1) xs).length + 1 < f := by
        simp only [renderJson, List.length_cons, List.length_append, pad,
          List.length_replicate] at hf
        simp only [List.length_append]
        omega
      have hi := rt_items x xs (lvl + 1) f ('\n' :: pad lvl) rest htws hb
      simp only [List.cons_append, List.append_assoc] at hi
      rw [hi]
      rfl
  | .obj [], lvl, fuel, pre, rest, hpre, hf => by
    cases fuel with
    | zero => exact absurd hf (Nat.not_lt_zero _)
    | succ f =>
      have harg : renderJson lvl (Json.obj []) ++ rest =
          '\x7b' :: ('\x7d' :: rest) := by
        simp [renderJson]
      rw [harg, parseValue_ws _ _ _ hpre, parseValue_lbrace,
          skipWs_cons_not _ _ (by decide)]
      simp
  | .obj (kv :: kvs), lvl, fuel, pre, rest, hpre, hf => by
    cases fuel with
    | zero => exact absurd hf (Nat.not_lt_zero _)
    | succ f =>
      have hpre2 : ∀ a ∈ '\n' :: pad (lvl + 1), jsonWs a = true := by
        intro a ha
        rcases List.mem_cons.mp ha with h0 | h0
        · subst h0; rfl
        · exact allWs_pad _ a h0
      have htws : ∀ a ∈ '\n' :: pad lvl, jsonWs a = true := by
        intro a ha
        rcases List.mem_cons.mp ha with h0 | h0
        · subst h0; rfl
        · exact allWs_pad _ a h0
      have hkv : renderKV (lvl + 1) kv =
          '"' :: (escapeStr kv.1.data ++ ('"' :: ':' :: ' ' ::
            renderJson (lvl + 1) kv.2)) := by
        obtain ⟨k, v⟩ := kv
        rfl
      have harg : renderJson lvl (Json.obj (kv :: kvs)) ++ rest =
          '\x7b' :: (('\n' :: pad (lvl + 1)) ++ (renderKV (lvl + 1) kv ++
            (renderFTail (lvl + 1) kvs ++
              (('\n' :: pad lvl) ++ ('\x7d' :: rest))))) := by
        simp [renderJson]
      rw [harg, parseValue_ws _ _ _ hpre, parseValue_lbrace,
          skipWs_append_ws _ _ hpre2]
      have hsk : skipWs (renderKV (lvl + 1) kv ++ (renderFTail (lvl + 1) kvs ++
          (('\n' :: pad lvl) ++ ('\x7d' :: rest)))) =
          renderKV (lvl + 1) kv ++ (renderFTail (lvl + 1) kvs ++
          (('\n' :: pad lvl) ++ ('\x7d' :: rest))) := by
        rw [hkv, List.cons_append, skipWs_cons_not _ _ (by decide),
            ← List.cons_append, ← hkv]
      rw [hsk, hkv]
      simp only [List.cons_append]
      rw [if_neg (by decide : ¬('"' = '\x7d')), ← List.cons_append, ← hkv]
      have hb : (renderKV (lvl + 1) kv ++ renderFTail (lvl + 1) kvs).length + 1 < f := by
        simp only [renderJson, List.length_cons, List.length_append, pad,
          List.length_replicate] at hf
        simp only [List.length_append]
        omega
      have hi := rt_fields kv kvs (lvl + 1) f ('\n' :: pad lvl) rest htws hb
      simp only [List.cons_append, List.append_assoc] at hi
      rw [hi]
      rfl
termination_by j _ _ _ _ _ _ => sizeOf j

/-- Decoding rendered array items stops exactly at the closing bracket. -/
theorem rt_items : ∀ (x : Json) (xs : List Json) (lvl fuel : Nat)
    (tws rest : List Char),
    (∀ c ∈ tws, jsonWs c = true) →
    (renderJson lvl x ++ renderTail lvl xs).length + 1 < fuel →
    parseItems fuel (renderJson lvl x ++ (renderTail lvl xs ++
      (tws ++ (']' :: rest)))) = some (x :: xs, rest)
  | x, [], lvl, fuel, tws, rest, htws, hf => by
    cases fuel with
    | zero => exact absurd hf (Nat.not_lt_zero _)
    | succ f =>
      have hfx : (renderJson lvl x).length < f := by
        simp only [List.length_append] at hf
        omega
      have hv := rt_val x lvl f [] (tws ++ (']' :: rest)) (by simp) hfx
      simp only [List.nil_append] at hv
      rw [parseItems_step]
      simp only [renderTail, List.nil_append, hv]
      rw [skipWs_append_ws _ _ htws, skipWs_cons_not _ _ (by decide)]
      rfl
  | x, y :: ys, lvl, fuel, tws, rest, htws, hf => by
    cases fuel with
    | zero => exact absurd hf (Nat.not_lt_zero _)
    | succ f =>
      have hfx : (renderJson lvl x).length < f := by
        simp only [List.length_append] at hf
        omega
      have hv := rt_val x lvl f []
        (renderTail lvl (y :: ys) ++ (tws ++ (']' :: rest))) (by simp) hfx
      simp only [List.nil_append] at hv
      have hpre : ∀ a ∈ '\n' :: pad lvl, jsonWs a = true := by
        intro a ha
        rcases List.mem_cons.mp ha with h0 | h0
        · subst h0; rfl
        · exact allWs_pad _ a h0
      have hb : (renderJson lvl y ++ renderTail lvl ys).length + 1 < f := by
        simp only [List.length_append, renderTail, List.length_cons, pad,
          List.length_replicate] at hf ⊢
        omega
      have htl : renderTail lvl (y :: ys) ++ (tws ++ (']' :: rest)) =
          ',' :: (('\n' :: pad lvl) ++ (renderJson lvl y ++ (renderTail lvl ys ++
            (tws ++ (']' :: rest))))) := by
        simp [renderTail]
      rw [parseItems_step]
      simp only [hv]
      rw [htl, skipWs_cons_not _ _ (by decide)]
      simp only []
      rw [parseItems_ws f _ _ hpre, rt_items y ys lvl f tws rest htws hb]
      rfl
termination_by x xs _ _ _ _ _ _ => sizeOf x + sizeOf xs

/-- Decoding rendered object members stops exactly at the closing brace. -/
theorem rt_fields : ∀ (kv : String × Json) (kvs : List (String × Json))
    (lvl fuel : Nat) (tws rest : List Char),
    (∀ c ∈ tws, jsonWs c = true) →
    (renderKV lvl kv ++ renderFTail lvl kvs).length + 1 < fuel →
    parseFields fuel (renderKV lvl kv ++ (renderFTail lvl kvs ++
      (tws ++ ('\x7d' :: rest)))) = some (kv :: kvs, rest)
  | (k, v), [], lvl, fuel, tws, rest, htws, hf => by
    cases fuel with
    | zero => exact absurd hf (Nat.not_lt_zero _)
    | succ f =>
      have hfv : (renderJson lvl v).length < f := by
        simp only [renderKV, List.length_append, List.length_cons] at hf
        omega
      have hv := rt_val v lvl f [] (tws ++ ('\x7d' :: rest)) (by simp) hfv
      simp only [List.nil_append] at hv
      have harg : renderKV lvl (k, v) ++ (renderFTail lvl [] ++
          (tws ++ ('\x7d' :: rest))) =
          '"' :: (escapeStr k.data ++ ('"' :: (':' :: (' ' ::
            (renderJson lvl v ++ (tws ++ ('\x7d' :: rest))))))) := by
        simp [renderKV, renderFTail]
      rw [harg, parseFields_step, skipWs_cons_not _ _ (by decide)]
      simp only []
      rw [parseStringBody_escapeStr]
      simp only []
      rw [skipWs_cons_not _ _ (by decide)]
      simp only []
      rw [parseValue_space, hv]
      simp only []
      rw [skipWs_append_ws _ _ htws, skipWs_cons_not _ _ (by decide)]
      rfl
  | (k, v), kv2 :: kvs, lvl, fuel, tws, rest, htws, hf => by
    cases fuel with
    | zero => exact absurd hf (Nat.not_lt_zero _)
    | succ f =>
      have hfv : (renderJson lvl v).length < f := by
        simp only [renderKV, List.length_append, List.length_cons] at hf
        omega
      have hv := rt_val v lvl f []
        (renderFTail lvl (kv2 :: kvs) ++ (tws ++ ('\x7d' :: rest))) (by simp) hfv
      simp only [List.nil_append] at hv
      have hpre : ∀ a ∈ '\n' :: pad lvl, jsonWs a = true := by
        intro a ha
        rcases List.mem_cons.mp ha with h0 | h0
        · subst h0; rfl
        · exact allWs_pad _ a h0
      have hb : (renderKV lvl kv2 ++ renderFTail lvl kvs).length + 1 < f := by
        simp only [renderKV, List.length_append, renderFTail, List.length_cons,
          pad, List.length_replicate] at hf ⊢
        omega
      have htl : renderFTail lvl (kv2 :: kvs) ++ (tws ++ ('\x7d' :: rest)) =
          ',' :: (('\n' :: pad lvl) ++ (renderKV lvl kv2 ++ (renderFTail lvl kvs ++
            (tws ++ ('\x7d' :: rest))))) := by
        simp [renderFTail]
      have harg : renderKV lvl (k, v) ++ (renderFTail lvl (kv2 :: kvs) ++
          (tws ++ ('\x7d' :: rest))) =
          '"' :: (escapeStr k.data ++ ('"' :: (':' :: (' ' ::
            (renderJson lvl v ++ (renderFTail lvl (kv2 :: kvs) ++
              (tws ++ ('\x7d' :: rest)))))))) := by
        simp [renderKV]
      rw [harg, parseFields_step, skipWs_cons_not _ _ (by decide)]
      simp only []
      rw [parseStringBody_escapeStr]
      simp only []
      rw [skipWs_cons_not _ _ (by decide)]
      simp only []
      rw [parseValue_space, hv]
      simp only []
      rw [htl, skipWs_cons_not _ _ (by decide)]
      simp only []
      rw [parseFields_ws f _ _ hpre, rt_fields kv2 kvs lvl f tws rest htws hb]
      rfl
termination_by kv kvs _ _ _ _ _ _ => sizeOf kv + sizeOf kvs
end

/-! ### Frame and provenance lemmas for the state machine -/

/-- The flush `_save_article_chunk` touches only `chunks` and `current_article_text`. -/
theorem save_frame (st : Ctx) :
    (save_article_chunk st).current_livre = st.current_livre ∧
    (save_article_chunk st).current_titre = st.current_titre ∧
    (save_article_chunk st).current_chapitre = st.current_chapitre ∧
    (save_article_chunk st).current_section = st.current_section ∧
    (save_article_chunk st).current_article = st.current_article ∧
    (save_article_chunk st).current_article_number = st.current_article_number := by
  unfold save_article_chunk
  by_cases h1 : (optTruthy st.current_article && !st.current_article_text.isEmpty) = true
  · by_cases h2 : ((st.current_article_text.map pyStrip).filter strTruthy).isEmpty = true
    · simp [h1, h2]
    · simp [h1, h2]
  · simp [h1]

/-- The flush `_save_article_chunk` only appends to `chunks`, and anything it appends
was built by `_create_chunk`. -/
theorem save_chunks_ext (st : Ctx) :
    ∃ l, (save_article_chunk st).chunks = st.chunks ++ l ∧
      ∀ c ∈ l, ∃ st', c = create_chunk st' := by
  unfold save_article_chunk
  by_cases h1 : (optTruthy st.current_article && !st.current_article_text.isEmpty) = true
  · by_cases h2 : ((st.current_article_text.map pyStrip).filter strTruthy).isEmpty = true
    · exact ⟨[], by simp [h1, h2], by simp⟩
    · refine ⟨[create_chunk { st with current_article_text :=
          (st.current_article_text.map pyStrip).filter strTruthy }],
        by simp [h1, h2], ?_⟩
      intro c hc
      simp only [List.mem_singleton] at hc
      exact ⟨_, hc⟩
  · exact ⟨[], by simp [h1], by simp⟩

/-- One loop iteration only appends `_create_chunk` results to `chunks`. -/
theorem stepLine_chunks_ext (st : Ctx) (line : String) (nx : Option String) :
    ∃ l, (stepLine st line nx).1.chunks = st.chunks ++ l ∧
      ∀ c ∈ l, ∃ st', c = create_chunk st' := by
  unfold stepLine
  repeat' split
  all_goals simp only
  all_goals first
    | exact save_chunks_ext st
    | exact ⟨[], by simp, by simp⟩

/-- The whole loop only appends `_create_chunk` results to `chunks`. -/
theorem parseLoop_chunks_ext :
    ∀ n ls st, ls.length ≤ n →
      ∃ l, (parseLoop st ls).chunks = st.chunks ++ l ∧
        ∀ c ∈ l, ∃ st', c = create_chunk st' := by
  intro n
  induction n with
  | zero =>
    intro ls st h
    have : ls = [] := List.length_eq_zero.mp (Nat.le_zero.mp h)
    subst this
    exact ⟨[], by simp [parseLoop], by simp⟩
  | succ n ih =>
    intro ls st h
    match ls with
    | [] => exact ⟨[], by simp [parseLoop], by simp⟩
    | [line] =>
      obtain ⟨l1, h1, hc1⟩ := stepLine_chunks_ext st line none
      exact ⟨l1, by simpa [parseLoop] using h1, hc1⟩
    | line :: next :: rest =>
      simp only [parseLoop]
      obtain ⟨l1, h1, hc1⟩ := stepLine_chunks_ext st line (some next)
      split
      · obtain ⟨l2, h2, hc2⟩ := ih rest (stepLine st line (some next)).1
          (by simp at h; omega)
        refine ⟨l1 ++ l2, ?_, ?_⟩
        · rw [h2, h1, List.append_assoc]
        · intro c hc
          rcases List.mem_append.mp hc with hm | hm
          · exact hc1 c hm
          · exact hc2 c hm
      · obtain ⟨l2, h2, hc2⟩ := ih (next :: rest) (stepLine st line (some next)).1
          (by simp at h ⊢; omega)
        refine ⟨l1 ++ l2, ?_, ?_⟩
        · rw [h2, h1, List.append_assoc]
        · intro c hc
          rcases List.mem_append.mp hc with hm | hm
          · exact hc1 c hm
          · exact hc2 c hm

/-- The method `parse_text` only appends `_create_chunk` results to `chunks`. -/
theorem parse_text_chunks_ext (st : Ctx) (text : String) :
    ∃ l, (parse_text st text).chunks = st.chunks ++ l ∧
      ∀ c ∈ l, ∃ st', c = create_chunk st' := by
  unfold parse_text
  obtain ⟨l1, h1, hc1⟩ :=
    parseLoop_chunks_ext (normalize text).length (normalize text) st le_rfl
  obtain ⟨l2, h2, hc2⟩ := save_chunks_ext (parseLoop st (normalize text))
  refine ⟨l1 ++ l2, ?_, ?_⟩
  · rw [h2, h1, List.append_assoc]
  · intro c hc
    rcases List.mem_append.mp hc with hm | hm
    · exact hc1 c hm
    · exact hc2 c hm

/-- Every chunk returned by `parse_text` on a fresh chunker was built by
`_create_chunk` from some context. -/
theorem chunk_provenance (text : String) (c : Chunk)
    (h : c ∈ parse_text_chunks initCtx text) : ∃ st', c = create_chunk st' := by
  obtain ⟨l, hl, hc⟩ := parse_text_chunks_ext initCtx text
  unfold parse_text_chunks at h
  rw [hl] at h
  simp only [initCtx, List.nil_append] at h
  exact hc c h

/-! ### C1: matcher dispatch and the fallthrough -/

/-- C1 (counterexample): with an article active, the line `"Art 5"` matches
none of the five matchers, yet it is discarded rather than appended: the
fallthrough additionally requires the line not to start with a heading
keyword, which `"Art 5"` does. This falsifies the claim that every
unmatched line is appended whenever an article is active. -/
theorem C1_cex :
    livreMatch "Art 5" = none ∧ titreMatch "Art 5" = none ∧
    chapitreMatch "Art 5" = none ∧ sectionMatch "Art 5" = none ∧
    articleMatch "Art 5" = none ∧
    optTruthy exArticleCtx.current_article = true ∧
    stepLine exArticleCtx "Art 5" none = (exArticleCtx, false) := by
  decide

/-- C1 (amended): the matchers are tried in the fixed order Book, Title,
Chapter, Section, Article and only the first match is applied; when none
matches, the line is appended to the pending body exactly when an article
is active AND the line does not start (case-insensitively) with
LIVRE/Titre/Chapitre/Section/Art; otherwise it is discarded without
error. -/
theorem C1_dispatch (st : Ctx) (line : String) (nx : Option String)
    (h1 : livreMatch line = none) (h2 : titreMatch line = none)
    (h3 : chapitreMatch line = none) (h4 : sectionMatch line = none)
    (h5 : articleMatch line = none) :
    stepLine st line nx =
      (if optTruthy st.current_article && !headingGuard line then
        { st with current_article_text := st.current_article_text ++ [line] }
       else st, false) := by
  simp only [stepLine, h1, h2, h3, h4, h5]
  by_cases hc : (optTruthy st.current_article && !headingGuard line) = true <;>
    simp [hc]

/-- C1 witness: the amended dispatch at a concrete state and line. -/
theorem C1_dispatch_wit :
    stepLine exArticleCtx "texte" none =
      (if optTruthy exArticleCtx.current_article && !headingGuard "texte" then
        { exArticleCtx with current_article_text :=
            exArticleCtx.current_article_text ++ ["texte"] }
       else exArticleCtx, false) :=
  C1_dispatch exArticleCtx "texte" none (by decide) (by decide) (by decide)
    (by decide) (by decide)

/-! ### C2: the continuation-title lookahead -/

/-- C2 (counterexample): `"Titre I"` has an empty inline fragment and the
following line `"Livrex"` matches no heading/article pattern, yet it is NOT
consumed as the continuation title (the title stays empty and the cursor
does not skip it), because the lookahead guard only tests the keyword
prefix, which `"Livrex"` has. -/
theorem C2_cex :
    titreMatch "Titre I" = some ("I", "") ∧
    livreMatch "Livrex" = none ∧ titreMatch "Livrex" = none ∧
    chapitreMatch "Livrex" = none ∧ sectionMatch "Livrex" = none ∧
    articleMatch "Livrex" = none ∧
    stepLine initCtx "Titre I" (some "Livrex") =
      ({ initCtx with current_titre := some "Titre I" }, false) := by
  decide

/-- C2 (amended): for each heading matcher, when the inline fragment strips
to empty, the immediately following line is consumed as the continuation
title (and skipped) exactly when it does NOT start, case-insensitively,
with one of the keywords LIVRE/Titre/Chapitre/Section/Art; when it does
start with such a keyword (in particular whenever it matches any
heading/article pattern) the title remains empty and the line is not
consumed. -/
theorem C2_lookahead :
    (∀ (st : Ctx) (line nl num frag : String),
      livreMatch line = some (num, frag) → pyStrip frag = "" →
      ((headingGuard nl = false →
          (stepLine st line (some nl)).2 = true ∧
          (stepLine st line (some nl)).1.current_livre =
            some (composeLabel "Livre" num nl)) ∧
       (headingGuard nl = true →
          (stepLine st line (some nl)).2 = false ∧
          (stepLine st line (some nl)).1.current_livre =
            some (composeLabel "Livre" num "")))) ∧
    (∀ (st : Ctx) (line nl num frag : String),
      livreMatch line = none → titreMatch line = some (num, frag) →
      pyStrip frag = "" →
      ((headingGuard nl = false →
          (stepLine st line (some nl)).2 = true ∧
          (stepLine st line (some nl)).1.current_titre =
            some (composeLabel "Titre" num nl)) ∧
       (headingGuard nl = true →
          (stepLine st line (some nl)).2 = false ∧
          (stepLine st line (some nl)).1.current_titre =
            some (composeLabel "Titre" num "")))) ∧
    (∀ (st : Ctx) (line nl num frag : String),
      livreMatch line = none → titreMatch line = none →
      chapitreMatch line = some (num, frag) → pyStrip frag = "" →
      ((headingGuard nl = false →
          (stepLine st line (some nl)).2 = true ∧
          (stepLine st line (some nl)).1.current_chapitre =
            some (composeLabel "Chapitre" num nl)) ∧
       (headingGuard nl = true →
          (stepLine st line (some nl)).2 = false ∧
          (stepLine st line (some nl)).1.current_chapitre =
            some (composeLabel "Chapitre" num "")))) ∧
    (∀ (st : Ctx) (line nl num frag : String),
      livreMatch line = none → titreMatch line = none →
      chapitreMatch line = none → sectionMatch line = some (num, frag) →
      pyStrip frag = "" →
      ((headingGuard nl = false →
          (stepLine st line (some nl)).2 = true ∧
          (stepLine st line (some nl)).1.current_section =
            some (composeLabel "Section" num nl)) ∧
       (headingGuard nl = true →
          (stepLine st line (some nl)).2 = false ∧
          (stepLine st line (some nl)).1.current_section =
            some (composeLabel "Section" num "")))) := by
  refine ⟨?_, ?_, ?_, ?_⟩
  · intro st line nl num frag hm hfrag
    constructor
    · intro hg
      simp [stepLine, hm, resolveTitle, hfrag, strTruthy, hg]
    · intro hg
      simp [stepLine, hm, resolveTitle, hfrag, strTruthy, hg]
  · intro st line nl num frag h0 hm hfrag
    constructor
    · intro hg
      simp [stepLine, h0, hm, resolveTitle, hfrag, strTruthy, hg]
    · intro hg
      simp [stepLine, h0, hm, resolveTitle, hfrag, strTruthy, hg]
  · intro st line nl num frag h0 h1 hm hfrag
    constructor
    · intro hg
      simp [stepLine, h0, h1, hm, resolveTitle, hfrag, strTruthy, hg]
    · intro hg
      simp [stepLine, h0, h1, hm, resolveTitle, hfrag, strTruthy, hg]
  · intro st line nl num frag h0 h1 h2 hm hfrag
    constructor
    · intro hg
      simp [stepLine, h0, h1, h2, hm, resolveTitle, hfrag, strTruthy, hg]
    · intro hg
      simp [stepLine, h0, h1, h2, hm, resolveTitle, hfrag, strTruthy, hg]

/-- C2 witness: the Book case at concrete inputs, in both guard branches. -/
theorem C2_lookahead_wit :
    ((stepLine initCtx "LIVRE II" (some "Suite du titre")).2 = true ∧
      (stepLine initCtx "LIVRE II" (some "Suite du titre")).1.current_livre =
        some (composeLabel "Livre" "II" "Suite du titre")) ∧
    ((stepLine initCtx "LIVRE II" (some "Article premier")).2 = false ∧
      (stepLine initCtx "LIVRE II" (some "Article premier")).1.current_livre =
        some (composeLabel "Livre" "II" "")) :=
  ⟨(C2_lookahead.1 initCtx "LIVRE II" "Suite du titre" "II" ""
      (by decide) (by decide)).1 (by decide),
   (C2_lookahead.1 initCtx "LIVRE II" "Article premier" "II" ""
      (by decide) (by decide)).2 (by decide)⟩

/-! ### C3: the Chapter transition -/

/-- C3: in any state with Book, Title and Section labels set, a line
matched as a Chapter heading (and by no earlier matcher) flushes the
active article, sets the Chapter label, clears the Section label and both
active-article fields, and leaves Book and Title unchanged. -/
theorem C3_chapter_transition (st : Ctx) (line : String) (nx : Option String)
    (num frag : String)
    (_hb : st.current_livre.isSome = true) (_ht : st.current_titre.isSome = true)
    (_hs : st.current_section.isSome = true)
    (h1 : livreMatch line = none) (h2 : titreMatch line = none)
    (h3 : chapitreMatch line = some (num, frag)) :
    (stepLine st line nx).1.current_livre = st.current_livre ∧
    (stepLine st line nx).1.current_titre = st.current_titre ∧
    (stepLine st line nx).1.current_chapitre =
      some (composeLabel "Chapitre" num (resolveTitle frag nx).1) ∧
    (stepLine st line nx).1.current_section = none ∧
    (stepLine st line nx).1.current_article = none ∧
    (stepLine st line nx).1.current_article_number = none ∧
    (stepLine st line nx).1.chunks = (save_article_chunk st).chunks := by
  obtain ⟨f1, f2, f3, f4, f5, f6⟩ := save_frame st
  simp [stepLine, h1, h2, h3, f1, f2]

/-- C3 witness: the transition at a concrete fully-populated state. -/
theorem C3_chapter_transition_wit :
    (stepLine exFullCtx "Chapitre IV Des salaires" none).1.current_livre =
      some "Livre I" ∧
    (stepLine exFullCtx "Chapitre IV Des salaires" none).1.current_titre =
      some "Titre II" ∧
    (stepLine exFullCtx "Chapitre IV Des salaires" none).1.current_section =
      none := by
  have h := C3_chapter_transition exFullCtx "Chapitre IV Des salaires" none
    "IV" "Des salaires"
    (by decide) (by decide) (by decide) (by decide) (by decide) (by decide)
  exact ⟨h.1, h.2.1, h.2.2.2.1⟩

/-! ### C4: the flush operation -/

/-- C4 (counterexample): a flush that does emit a chunk leaves the
active-article fields (`current_article`, `current_article_number`) set;
only the pending body lines are cleared. This falsifies the claim that the
flush clears the active-article fields. -/
theorem C4_cex :
    (save_article_chunk exArticleCtx).chunks.length = 1 ∧
    (save_article_chunk exArticleCtx).current_article = some "Article 1" ∧
    (save_article_chunk exArticleCtx).current_article_number = some "1" ∧
    (save_article_chunk exArticleCtx).current_article_text = [] := by
  decide

/-- C4 (amended): the flush is a no-op when no article is active or all
accumulated body lines are empty after trimming; otherwise it appends
exactly one chunk and clears the pending body lines, while the ancestor
heading fields AND the active-article fields are unchanged. -/
theorem C4_flush (st : Ctx) :
    (¬(optTruthy st.current_article = true ∧
        (st.current_article_text.map pyStrip).filter strTruthy ≠ []) →
      save_article_chunk st = st) ∧
    ((optTruthy st.current_article = true ∧
        (st.current_article_text.map pyStrip).filter strTruthy ≠ []) →
      (save_article_chunk st).chunks =
        st.chunks ++ [create_chunk { st with current_article_text :=
          (st.current_article_text.map pyStrip).filter strTruthy }] ∧
      (save_article_chunk st).current_article_text = [] ∧
      (save_article_chunk st).current_livre = st.current_livre ∧
      (save_article_chunk st).current_titre = st.current_titre ∧
      (save_article_chunk st).current_chapitre = st.current_chapitre ∧
      (save_article_chunk st).current_section = st.current_section ∧
      (save_article_chunk st).current_article = st.current_article ∧
      (save_article_chunk st).current_article_number = st.current_article_number) := by
  constructor
  · intro h
    unfold save_article_chunk
    by_cases h1 : (optTruthy st.current_article && !st.current_article_text.isEmpty) = true
    · have hA : optTruthy st.current_article = true := by
        have h1' := h1
        simp only [Bool.and_eq_true] at h1'
        exact h1'.1
      by_cases h2 : ((st.current_article_text.map pyStrip).filter strTruthy).isEmpty = true
      · simp [h1, h2]
      · exact absurd ⟨hA, by simpa [List.isEmpty_iff] using h2⟩ h
    · simp [h1]
  · rintro ⟨hA, hne⟩
    have htext : st.current_article_text ≠ [] := by
      intro h0
      rw [h0] at hne
      simp at hne
    have h1 : (optTruthy st.current_article && !st.current_article_text.isEmpty) = true := by
      simp [hA, htext]
    have h2 : ((st.current_article_text.map pyStrip).filter strTruthy).isEmpty = false :=
      List.isEmpty_eq_false.mpr hne
    unfold save_article_chunk
    simp [h1, h2]

/-- C4 witness: the emitting branch of the amended flush at a concrete
state. -/
theorem C4_flush_wit :
    (save_article_chunk exArticleCtx).current_article_text = [] ∧
    (save_article_chunk exArticleCtx).current_article =
      exArticleCtx.current_article := by
  have h := (C4_flush exArticleCtx).2 ⟨by decide, by decide⟩
  exact ⟨h.2.1, h.2.2.2.2.2.2.1⟩

/-! ### C5: sub-article classification and ids -/

/-- The classification `_create_chunk` performs, for any context. -/
theorem create_chunk_props (st : Ctx) :
    (create_chunk st).metadata.is_sub_article =
      containsChar '-' (create_chunk st).metadata.article_number ∧
    (create_chunk st).metadata.base_article =
      splitHeadHyphen (create_chunk st).metadata.article_number ∧
    (create_chunk st).id =
      "CT_TN_A" ++ charReplace '-' '_' (create_chunk st).metadata.article_number := by
  have hbase : ∀ num : String,
      (if containsChar '-' num = true then splitHeadHyphen num else num) =
        splitHeadHyphen num := by
    intro num
    by_cases h : containsChar '-' num = true
    · rw [if_pos h]
    · rw [if_neg h]
      have hmm : ∀ a ∈ num.data, a ≠ '-' := by
        intro a ha hEq
        exact h (by simpa [containsChar, List.contains] using (hEq ▸ ha))
      have ht : num.data.takeWhile (fun c => !(c == '-')) = num.data := by
        rw [List.takeWhile_eq_self_iff]
        intro a ha
        cases hbeq : (a == '-') with
        | true => exact absurd (eq_of_beq hbeq) (hmm a ha)
        | false => simp [hbeq]
      show num = (⟨num.data.takeWhile (fun c => !(c == '-'))⟩ : String)
      rw [ht]
  unfold create_chunk
  exact ⟨rfl, hbase _, rfl⟩

/-- C5: for every chunk emitted by a fresh parse, `is_sub_article` holds
iff the raw article number contains a hyphen, `base_article` is the prefix
of the number before the first hyphen (the whole number without one), and
`id` is the fixed law prefix plus the number with hyphens replaced by
underscores. -/
theorem C5_classification (text : String) (c : Chunk)
    (h : c ∈ parse_text_chunks initCtx text) :
    c.metadata.is_sub_article = containsChar '-' c.metadata.article_number ∧
    c.metadata.base_article = splitHeadHyphen c.metadata.article_number ∧
    c.id = "CT_TN_A" ++ charReplace '-' '_' c.metadata.article_number := by
  obtain ⟨st', rfl⟩ := chunk_provenance text c h
  exact create_chunk_props st'

/-- C5 witness: the classification at the concrete sub-article `5-2`. -/
theorem C5_classification_wit :
    exChunk52.metadata.is_sub_article =
      containsChar '-' exChunk52.metadata.article_number ∧
    exChunk52.metadata.base_article =
      splitHeadHyphen exChunk52.metadata.article_number ∧
    exChunk52.id =
      "CT_TN_A" ++ charReplace '-' '_' exChunk52.metadata.article_number :=
  C5_classification "Art. 5-2 Bonjour" exChunk52 (by decide)

/-! ### C6: the serialized field names -/

/-- C6 (counterexample): the metadata keys of an emitted chunk are the
French source names `livre/titre/chapitre/section/...`, not the
`book/title/chapter/section/...` names the claim lists. -/
theorem C6_keys_cex :
    parse_text_chunks initCtx "Art. 1 Bonjour" = [exChunk1] ∧
    objKeys (ChunkMeta.toJson exChunk1.metadata) = metaKeyNames ∧
    metaKeyNames ≠
      ["book", "title", "chapter", "section", "article", "article_number",
       "base_article", "is_sub_article", "law", "chunk_type", "citation",
       "hierarchy_path"] := by
  refine ⟨by decide, by decide, by decide⟩

/-- C6 (amended): every chunk of a fresh parse serializes to an object with
exactly the fields `id`, `text`, `metadata`, whose metadata object has
exactly the keys `livre, titre, chapitre, section, article, article_number,
base_article, is_sub_article, law, chunk_type, citation, hierarchy_path`,
with `law` the fixed constant and `chunk_type = "article"`. -/
theorem C6_fields (text : String) (c : Chunk)
    (h : c ∈ parse_text_chunks initCtx text) :
    objKeys (Chunk.toJson c) = ["id", "text", "metadata"] ∧
    objKeys (ChunkMeta.toJson c.metadata) = metaKeyNames ∧
    c.metadata.law = "Code du travail tunisien" ∧
    c.metadata.chunk_type = "article" := by
  obtain ⟨st', rfl⟩ := chunk_provenance text c h
  exact ⟨rfl, rfl, rfl, rfl⟩

/-- C6 witness: the field contract at the concrete chunk for
`"Art. 1 Bonjour"`. -/
theorem C6_fields_wit :
    objKeys (Chunk.toJson exChunk1) = ["id", "text", "metadata"] ∧
    objKeys (ChunkMeta.toJson exChunk1.metadata) = metaKeyNames ∧
    exChunk1.metadata.law = "Code du travail tunisien" ∧
    exChunk1.metadata.chunk_type = "article" :=
  C6_fields "Art. 1 Bonjour" exChunk1 (by decide)

/-! ### C7: empty and whitespace-only input -/

/-- All-whitespace segments of an all-whitespace character list. -/
theorem splitNl_allspace (l : List Char) (h : ∀ c ∈ l, pySpace c = true) :
    ∀ seg ∈ splitNl l, ∀ c ∈ seg, pySpace c = true := by
  induction l with
  | nil =>
    intro seg hseg
    simp only [splitNl, List.mem_singleton] at hseg
    subst hseg
    simp
  | cons c r ih =>
    intro seg hseg
    have hr : ∀ x ∈ r, pySpace x = true := fun x hx => h x (List.mem_cons_of_mem _ hx)
    have hc : pySpace c = true := h c (List.mem_cons_self _ _)
    simp only [splitNl] at hseg
    by_cases hnl : c = '\n'
    · rw [if_pos hnl] at hseg
      rcases List.mem_cons.mp hseg with h0 | h0
      · subst h0
        simp
      · exact ih hr seg h0
    · rw [if_neg hnl] at hseg
      rcases hrec : splitNl r with _ | ⟨hd, tl⟩
      · rw [hrec] at hseg
        simp only [List.mem_singleton] at hseg
        subst hseg
        intro x hx
        simp only [List.mem_singleton] at hx
        exact hx ▸ hc
      · rw [hrec] at hseg
        rcases List.mem_cons.mp hseg with h0 | h0
        · subst h0
          intro x hx
          rcases List.mem_cons.mp hx with h1 | h1
          · exact h1 ▸ hc
          · exact ih hr hd (hrec ▸ List.mem_cons_self _ _) x h1
        · exact ih hr seg (hrec ▸ List.mem_cons_of_mem _ h0)

/-- Stripping an all-whitespace list yields the empty list. -/
theorem pyStripL_allspace (l : List Char) (h : ∀ c ∈ l, pySpace c = true) :
    pyStripL l = [] := by
  unfold pyStripL
  rw [List.dropWhile_eq_nil_iff.mpr h]
  simp

/-- C7: parsing the empty string, and any whitespace-only string, on a
fresh chunker returns the empty chunk sequence (and the total model
returns a sequence for every input by construction). -/
theorem C7_empty_input :
    parse_text_chunks initCtx "" = [] ∧
    ∀ s : String, (∀ c ∈ s.data, pySpace c = true) →
      parse_text_chunks initCtx s = [] := by
  constructor
  · decide
  · intro s hs
    have hnorm : normalize s = [] := by
      unfold normalize
      rw [List.filter_eq_nil_iff]
      intro a ha
      obtain ⟨seg, hseg, rfl⟩ := List.mem_map.mp ha
      have : pyStripL seg = [] :=
        pyStripL_allspace seg (splitNl_allspace s.data hs seg hseg)
      simp [strTruthy, this]
    unfold parse_text_chunks parse_text
    rw [hnorm]
    decide

/-- C7 witness: a concrete whitespace-only input. -/
theorem C7_empty_input_wit : parse_text_chunks initCtx "  \t  " = [] :=
  C7_empty_input.2 "  \t  " (by decide)

/-! ### C8: determinism -/

/-- C8: parsing is a pure function of the input text — equal inputs to a
fresh chunker yield identical chunk sequences (the embedding performs no
I/O and consults no other state). -/
theorem C8_deterministic (s t : String) (h : s = t) :
    parse_text_chunks initCtx s = parse_text_chunks initCtx t := by
  rw [h]

/-- C8 witness: determinism at a concrete input. -/
theorem C8_deterministic_wit :
    parse_text_chunks initCtx "Art. 1 Texte." =
      parse_text_chunks initCtx "Art. 1 Texte." :=
  C8_deterministic "Art. 1 Texte." "Art. 1 Texte." rfl

/-! ### C9: persistence round trip -/

/-- C9: saving any non-empty chunk sequence with the persistence adapter
(`json.dump(..., ensure_ascii=False, indent=2)`) and loading the file back
(`json.load`) returns exactly the in-memory sequence that was saved —
order, content and non-ASCII characters preserved. -/
theorem C9_round_trip (cs : List Chunk) (_h : cs ≠ []) :
    load_from_json (save_to_json cs) = some (Json.arr (cs.map Chunk.toJson)) := by
  have hv := rt_val (Json.arr (cs.map Chunk.toJson)) 0
    ((renderJson 0 (Json.arr (cs.map Chunk.toJson))).length + 1) [] []
    (by simp) (by omega)
  simp only [List.nil_append, List.append_nil] at hv
  show (match parseValue
      ((renderJson 0 (Json.arr (cs.map Chunk.toJson))).length + 1)
      (renderJson 0 (Json.arr (cs.map Chunk.toJson))) with
    | some (j, r) => if skipWs r = [] then some j else none
    | none => none) = some (Json.arr (cs.map Chunk.toJson))
  rw [hv]
  rfl

/-- C9 witness: the round trip at a concrete one-chunk sequence. -/
theorem C9_round_trip_wit :
    load_from_json (save_to_json [exChunk1]) =
      some (Json.arr ([exChunk1].map Chunk.toJson)) :=
  C9_round_trip [exChunk1] (List.cons_ne_nil _ _)

/-! ### C10: cross-call state reuse -/

/-- C10: a second `parse_text` on the same chunker starts from the leftover
state — the returned list extends the previously accumulated chunks (never
cleared), heading context demonstrably carries into the new parse (the
chunk parsed from the second call's text keeps the first call's `Livre`),
and `process_pdf` is exactly a parse from the freshly reset state. -/
theorem C10_state_reuse :
    (∀ (st : Ctx) (text : String), ∃ l,
      (parse_text st text).chunks = st.chunks ++ l) ∧
    ((parse_text (parse_text initCtx "LIVRE PREMIER\nArt. 1 aaa") "Art. 2 bbb").chunks.map
        (fun c => (c.id, c.metadata.livre)) =
      [("CT_TN_A1", some "Livre PREMIER"), ("CT_TN_A2", some "Livre PREMIER")]) ∧
    (∀ (st : Ctx) (text : String),
      process_pdf st text = parse_text initCtx text) := by
  refine ⟨?_, by decide, ?_⟩
  · intro st text
    obtain ⟨l, hl, _⟩ := parse_text_chunks_ext st text
    exact ⟨l, hl⟩
  · intro st text
    rfl

end CodeTravail
